import Mathlib

/-!
Shallow embedding of `src/librustc_mir/monomorphize/deduplicate_instances.rs`:
the generic-instance deduplication pass.  Types (`ty::Ty`) are modelled by the
inductive `STy`, the MIR body by `Mir`, and the per-parameter usage analysis
(`used_substs_for_instance`) and the canonicalizer
(`collapse_interchangable_instances`) are translated function by function.
Panics (`unwrap`) are modelled as `Option.none`; the diagnostic emitted for an
erased unused subst is modelled as a `Diagnostic` value collected in a list.
-/

/-- Usage level recorded for one generic parameter slot
(`enum ParamUsage { Unused, LayoutUsed, Used }`, source lines 115-121). -/
inductive ParamUsage where
  | Unused
  | LayoutUsed
  | Used
  deriving Repr, DecidableEq

/-- Embedding of the `sty` variants of `ty::Ty` that the pass needs:
a bare generic parameter reference (`ty::Param`), the two erasure markers
added by this branch (`ty::UnusedParam` and `ty::LayoutOnlyParam`), and
representative structural constructors: primitive types, references/pointers,
function types and aggregates with a list of arguments. -/
inductive STy where
  | Param (idx : Nat)
  | UnusedParam
  | LayoutOnlyParam (size align : Nat)
  | Prim (name : Nat)
  | Ref (pointee : STy)
  | FnTy (input output : STy)
  | Adt (name : Nat) (args : List STy)
  deriving Repr

/-- Parameter usage table contents: the `parameters` field of `ParamsUsage`,
an `IndexVec<ParamIdx, ParamUsage>` modelled as a plain list indexed by `Nat`. -/
abbrev Table := List ParamUsage

/-- Read a table entry (`parameters[ParamIdx(i)]`); out-of-range reads return
`Unused` (in the source all reads are in range, see the length lemmas below). -/
def tableGet (t : Table) (i : Nat) : ParamUsage :=
  match t, i with
  | [], _ => .Unused
  | x :: _, 0 => x
  | _ :: xs, i + 1 => tableGet xs i

/-- Write a table entry (`parameters[ParamIdx(i)] = v`); out-of-range writes
are dropped (in the source all writes are in range). -/
def tableSet (t : Table) (i : Nat) (v : ParamUsage) : Table :=
  match t, i with
  | [], _ => []
  | _ :: xs, 0 => v :: xs
  | x :: xs, i + 1 => x :: tableSet xs i v

mutual

/-- The `ty.needs_subst()` pruning test of `fold_ty` (source line 188):
true exactly when the type still contains a bare generic parameter
reference somewhere in its structure. -/
def needs_subst : STy → Bool
  | .Param _ => true
  | .UnusedParam => false
  | .LayoutOnlyParam _ _ => false
  | .Prim _ => false
  | .Ref p => needs_subst p
  | .FnTy a b => needs_subst a || needs_subst b
  | .Adt _ args => needs_subst_list args

/-- Pointwise extension of `needs_subst` to constructor argument lists. -/
def needs_subst_list : List STy → Bool
  | [] => false
  | t :: ts => needs_subst t || needs_subst_list ts

end

mutual

/-- Specification-side predicate: parameter slot `i` is syntactically reachable
as a bare parameter reference (`ty::Param(i)`) somewhere inside `ty`. -/
def occursParam (i : Nat) : STy → Bool
  | .Param j => i == j
  | .UnusedParam => false
  | .LayoutOnlyParam _ _ => false
  | .Prim _ => false
  | .Ref p => occursParam i p
  | .FnTy a b => occursParam i a || occursParam i b
  | .Adt _ args => occursParamList i args

/-- Pointwise extension of `occursParam` to constructor argument lists. -/
def occursParamList (i : Nat) : List STy → Bool
  | [] => false
  | t :: ts => occursParam i t || occursParamList i ts

end

mutual

/-- The stateful `SubstsVisitor::fold_ty` (source lines 187-198), with the
visitor state reduced to the table it updates.  If the type contains no
parameter references the branch is pruned; a bare parameter reference marks
its slot `Used`; in every other case `super_fold_with` recurses into the
constructor arguments (a `Param` has none, so marking and recursion are
merged into one match). -/
def fold_ty (t : Table) (ty : STy) : Table :=
  if needs_subst ty = false then t
  else
    match ty with
    | .Param i => tableSet t i .Used
    | .Ref p => fold_ty t p
    | .FnTy a b => fold_ty (fold_ty t a) b
    | .Adt _ args => fold_ty_list t args
    | _ => t

/-- Folding each element of a list of types in order through `fold_ty`. -/
def fold_ty_list (t : Table) : List STy → Table
  | [] => t
  | ty :: tys => fold_ty_list (fold_ty t ty) tys

end

/-- An operand of a MIR rvalue: a use of a local (a place, whose type is
looked up in the body's local declarations, `op.ty(&local_decls, tcx)`) or a
constant carrying its literal type. -/
inductive Operand where
  | Copy (localIdx : Nat)
  | Constant (ty : STy)
  deriving Repr

/-- MIR rvalues as far as this pass distinguishes them: a cast
(`Rvalue::Cast(_kind, op, ty)`, with its explicit target type) and every
other rvalue, represented by the operand it uses. -/
inductive Rvalue where
  | Cast (op : Operand) (ty : STy)
  | Use (op : Operand)
  deriving Repr

/-- The MIR body (`Mir<'tcx>`) as far as `mir.fold_with(&mut substs_visitor)`
sees it: the types of the local declarations and the rvalues of the body's
statements.  `fold_with` folds every type structurally present in the body. -/
structure Mir where
  local_decls : List STy
  rvalues : List Rvalue
  deriving Repr

/-- Type of an operand, `op.ty(&self.1.local_decls, tcx)` (source line 174):
a local's declared type, or the constant's literal type.  An out-of-range
local index yields a parameter-free dummy (in the source it cannot occur). -/
def operand_ty (mir : Mir) : Operand → STy
  | .Copy l => mir.local_decls.getD l (.Prim 0)
  | .Constant ty => ty

/-- Types structurally present in an operand (a constant carries its literal
type; a place is an index whose type lives in `local_decls`). -/
def operand_tys : Operand → List STy
  | .Copy _ => []
  | .Constant ty => [ty]

/-- Types structurally present in an rvalue, as folded by
`mir.fold_with`: for a cast, the operand's constant type (if any) and the
explicit target type. -/
def rvalue_tys : Rvalue → List STy
  | .Cast op ty => operand_tys op ++ [ty]
  | .Use op => operand_tys op

/-- All types the structural fold `mir.fold_with(&mut substs_visitor)`
(source line 211) reaches in the body: every local declaration's type and
every type structurally present in the body's rvalues. -/
def mirTypes (mir : Mir) : List STy :=
  mir.local_decls ++ mir.rvalues.flatMap rvalue_tys

/-- One generic parameter definition (`ty::GenericParamDef`): its dense index
and whether `ParamTy::for_def(param_def).is_self()` holds for it. -/
structure GenericParamDef where
  index : Nat
  is_self : Bool
  deriving Repr

/-- The generic parameter list of a function (`tcx.generics_of(def_id)`). -/
structure Generics where
  params : List GenericParamDef
  deriving Repr

/-- Modelled from the spec: the signature normalizer external interface.
`instance.fn_sig(tcx)` followed by
`tcx.normalize_erasing_late_bound_regions(ParamEnv::reveal_all(), &sig)` is
repository code outside this file's source; per the spec it is keyed by the
function identity and returns the input types and the output type with
bound-variable indirection removed, raw parameter references visible. -/
structure FnSig where
  inputs : List STy
  output : STy
  deriving Repr

/-- Modelled from the spec: the per-function-identity answers of the external
collaborators (intermediate representation accessor, generic-parameter
metadata accessor, signature normalizer) plus whether the instance's type is
a plain `ty::FnDef` (the `instance.ty(tcx).sty` match of the guard;
closures and other values are not `FnDef`). -/
structure DefData where
  is_mir_available : Bool
  mir : Mir
  generics : Generics
  sig : FnSig
  is_fn_def : Bool

/-- Modelled from the spec: the type context `TyCtxt`, answering per-function
queries, the lang-item registry (`tcx.lang_items().items()`, a list of
optional function identities) and the layout query
(`LayoutCx::layout_of`, returning size and alignment or failing). -/
structure TyCtxt where
  defs : Nat → DefData
  lang_items : List (Option Nat)
  layout : Nat → STy → Option (Nat × Nat)

/-- One element of an instance's substitution list (`Kind` /
`UnpackedKind`): a type argument or a non-type argument such as a
region/lifetime. -/
inductive SubstKind where
  | KType (ty : STy)
  | KLifetime (r : Nat)
  deriving Repr

/-- A monomorphized function instance (`Instance<'tcx>`): its function
identity (`instance.def_id()`) and its substitution list
(`instance.substs`). -/
structure Instance where
  def_id : Nat
  substs : List SubstKind
  deriving Repr

/-- The parameter usage table `ParamsUsage` (source lines 125-128). -/
structure ParamsUsage where
  parameters : Table
  deriving Repr

/-- The receiver-forcing loop of `used_substs_for_instance` (source lines
215-220): every parameter definition whose `ParamTy` `is_self()` has its
slot forced to `Used`. -/
def mark_self_params (params : List GenericParamDef) (t : Table) : Table :=
  match params with
  | [] => t
  | p :: rest =>
      mark_self_params rest (if p.is_self then tableSet t p.index .Used else t)

/-- The usage classifier `used_substs_for_instance` (source lines 201-223):
a table of `instance.substs.len()` entries, all `Unused`, is threaded
through the structural fold of the MIR body, the folds of the normalized
signature's input types, the receiver-forcing loop over the generic
parameter definitions, and the fold of the signature's output type. -/
def used_substs_for_instance (tcx : TyCtxt) (inst : Instance) : ParamsUsage :=
  let d := tcx.defs inst.def_id
  let t0 : Table := List.replicate inst.substs.length ParamUsage.Unused
  let t1 := fold_ty_list t0 (mirTypes d.mir)
  let t2 := fold_ty_list t1 d.sig.inputs
  let t3 := mark_self_params d.generics.params t2
  let t4 := fold_ty t3 d.sig.output
  ⟨t4⟩

/-- The warning emitted when an `Unused` slot is erased
(`tcx.sess.warn(...)`, source lines 71-77): it names the slot index and the
instance being rewritten. -/
structure Diagnostic where
  slot : Nat
  fn : Nat
  deriving Repr

/-- Rewriting of the substitution at slot `i` (the body of the `map` closure,
source lines 43-95): a type argument is kept for `Used`, replaced by the
layout-only marker (size and alignment from the layout query, whose
`unwrap` is modelled as `Option`) for `LayoutUsed`, and replaced by the
unused marker with a warning for `Unused`; a non-type argument is cloned
unchanged. -/
def canonicalize_subst (tcx : TyCtxt) (fnid : Nat) (used : Table) (i : Nat) :
    SubstKind → Option (SubstKind × List Diagnostic)
  | .KType ty =>
    match tableGet used i with
    | .Unused => some (.KType .UnusedParam, [⟨i, fnid⟩])
    | .LayoutUsed =>
      match tcx.layout fnid ty with
      | some (size, align) => some (.KType (.LayoutOnlyParam size align), [])
      | none => none
    | .Used => some (.KType ty, [])
  | .KLifetime r => some (.KLifetime r, [])

/-- The enumerated map over `instance.substs` (source line 43), collecting
the rewritten substitutions and the emitted diagnostics in order; `i` is the
index of the first element of the remaining list. -/
def canonicalize_substs (tcx : TyCtxt) (fnid : Nat) (used : Table) (i : Nat) :
    List SubstKind → Option (List SubstKind × List Diagnostic)
  | [] => some ([], [])
  | s :: rest =>
    match canonicalize_subst tcx fnid used i s with
    | none => none
    | some (s1, d1) =>
      match canonicalize_substs tcx fnid used (i + 1) rest with
      | none => none
      | some (rest1, d2) => some (s1 :: rest1, d1 ++ d2)

/-- The entry point `collapse_interchangable_instances` (source lines
24-99).  The guard returns the instance unchanged when the substitution
list is a no-op (empty), when no MIR is available, when the instance's type
is not a plain `FnDef`, or when the function identity is registered as a
lang item; otherwise the substitutions are rewritten slot by slot against
the usage table.  The result pairs the instance with the diagnostics
emitted; `none` models a panic. -/
def collapse_interchangable_instances (tcx : TyCtxt) (inst : Instance) :
    Option (Instance × List Diagnostic) :=
  if inst.substs.isEmpty || (tcx.defs inst.def_id).is_mir_available = false then
    some (inst, [])
  else if (tcx.defs inst.def_id).is_fn_def = false then
    some (inst, [])
  else if tcx.lang_items.contains (some inst.def_id) then
    some (inst, [])
  else
    let used := used_substs_for_instance tcx inst
    match canonicalize_substs tcx inst.def_id used.parameters 0 inst.substs with
    | none => none
    | some (substs1, diags) => some ({ inst with substs := substs1 }, diags)

theorem tableSet_length (t : Table) (i : Nat) (v : ParamUsage) :
    (tableSet t i v).length = t.length := by
  induction t generalizing i with
  | nil => rfl
  | cons x xs ih =>
    cases i with
    | zero => rfl
    | succ j => simpa [tableSet] using ih j

theorem tableGet_tableSet_self (t : Table) (i : Nat) (v : ParamUsage)
    (h : i < t.length) : tableGet (tableSet t i v) i = v := by
  induction t generalizing i with
  | nil => simp at h
  | cons x xs ih =>
    cases i with
    | zero => rfl
    | succ j =>
      simp only [tableSet, tableGet]
      exact ih j (by simpa using h)

theorem tableGet_tableSet_or (t : Table) (i j : Nat) (v : ParamUsage) :
    tableGet (tableSet t i v) j = tableGet t j ∨ tableGet (tableSet t i v) j = v := by
  induction t generalizing i j with
  | nil => left; rfl
  | cons x xs ih =>
    cases i with
    | zero =>
      cases j with
      | zero => right; rfl
      | succ j2 => left; rfl
    | succ i2 =>
      cases j with
      | zero => left; rfl
      | succ j2 => simpa [tableSet, tableGet] using ih i2 j2

theorem mem_tableSet (t : Table) (i : Nat) (v x : ParamUsage)
    (h : x ∈ tableSet t i v) : x ∈ t ∨ x = v := by
  induction t generalizing i with
  | nil => simp [tableSet] at h
  | cons y xs ih =>
    cases i with
    | zero =>
      rcases List.mem_cons.mp h with h1 | h1
      · right; exact h1
      · left; exact List.mem_cons_of_mem _ h1
    | succ j =>
      rcases List.mem_cons.mp h with h1 | h1
      · left; exact h1 ▸ List.mem_cons_self _ _
      · rcases ih j h1 with h2 | h2
        · left; exact List.mem_cons_of_mem _ h2
        · right; exact h2

mutual

theorem fold_ty_length (t : Table) (ty : STy) :
    (fold_ty t ty).length = t.length := by
  cases ty with
  | Param i => rw [fold_ty]; split; rfl; exact tableSet_length t i _
  | UnusedParam => simp [fold_ty, needs_subst]
  | LayoutOnlyParam s a => simp [fold_ty, needs_subst]
  | Prim n => simp [fold_ty, needs_subst]
  | Ref p => rw [fold_ty]; split; rfl; exact fold_ty_length t p
  | FnTy a b =>
    rw [fold_ty]; split; rfl
    rw [fold_ty_length (fold_ty t a) b, fold_ty_length t a]
  | Adt n args => rw [fold_ty]; split; rfl; exact fold_ty_list_length t args

theorem fold_ty_list_length (t : Table) (l : List STy) :
    (fold_ty_list t l).length = t.length := by
  cases l with
  | nil => rfl
  | cons ty tys =>
    rw [fold_ty_list, fold_ty_list_length (fold_ty t ty) tys, fold_ty_length t ty]

end

mutual

theorem fold_ty_get_or (t : Table) (ty : STy) (j : Nat) :
    tableGet (fold_ty t ty) j = tableGet t j ∨
      tableGet (fold_ty t ty) j = .Used := by
  cases ty with
  | Param i =>
    rw [fold_ty]; split
    · left; rfl
    · exact tableGet_tableSet_or t i j _
  | UnusedParam => simp [fold_ty, needs_subst]
  | LayoutOnlyParam s a => simp [fold_ty, needs_subst]
  | Prim n => simp [fold_ty, needs_subst]
  | Ref p =>
    rw [fold_ty]; split
    · left; rfl
    · exact fold_ty_get_or t p j
  | FnTy a b =>
    rw [fold_ty]; split
    · left; rfl
    · rcases fold_ty_get_or (fold_ty t a) b j with h1 | h1
      · rw [h1]; exact fold_ty_get_or t a j
      · right; exact h1
  | Adt n args =>
    rw [fold_ty]; split
    · left; rfl
    · exact fold_ty_list_get_or t args j

theorem fold_ty_list_get_or (t : Table) (l : List STy) (j : Nat) :
    tableGet (fold_ty_list t l) j = tableGet t j ∨
      tableGet (fold_ty_list t l) j = .Used := by
  cases l with
  | nil => left; rfl
  | cons ty tys =>
    rw [fold_ty_list]
    rcases fold_ty_list_get_or (fold_ty t ty) tys j with h1 | h1
    · rw [h1]; exact fold_ty_get_or t ty j
    · right; exact h1

end

theorem fold_ty_preserves_used (t : Table) (ty : STy) (j : Nat)
    (h : tableGet t j = .Used) : tableGet (fold_ty t ty) j = .Used := by
  rcases fold_ty_get_or t ty j with h1 | h1
  · rw [h1, h]
  · exact h1

theorem fold_ty_list_preserves_used (t : Table) (l : List STy) (j : Nat)
    (h : tableGet t j = .Used) : tableGet (fold_ty_list t l) j = .Used := by
  rcases fold_ty_list_get_or t l j with h1 | h1
  · rw [h1, h]
  · exact h1

mutual

theorem occursParam_needs_subst (i : Nat) (ty : STy)
    (h : occursParam i ty = true) : needs_subst ty = true := by
  cases ty with
  | Param j => rfl
  | UnusedParam => simp [occursParam] at h
  | LayoutOnlyParam s a => simp [occursParam] at h
  | Prim n => simp [occursParam] at h
  | Ref p =>
    rw [occursParam] at h
    rw [needs_subst]
    exact occursParam_needs_subst i p h
  | FnTy a b =>
    rw [occursParam] at h
    rw [needs_subst]
    rcases Bool.or_eq_true_iff.mp h with h1 | h1
    · rw [occursParam_needs_subst i a h1]; rfl
    · rw [occursParam_needs_subst i b h1]; simp
  | Adt n args =>
    rw [occursParam] at h
    rw [needs_subst]
    exact occursParamList_needs_subst_list i args h

theorem occursParamList_needs_subst_list (i : Nat) (l : List STy)
    (h : occursParamList i l = true) : needs_subst_list l = true := by
  cases l with
  | nil => simp [occursParamList] at h
  | cons ty tys =>
    rw [occursParamList] at h
    rw [needs_subst_list]
    rcases Bool.or_eq_true_iff.mp h with h1 | h1
    · rw [occursParam_needs_subst i ty h1]; rfl
    · rw [occursParamList_needs_subst_list i tys h1]; simp

end

mutual

theorem fold_ty_marks (t : Table) (ty : STy) (i : Nat)
    (hocc : occursParam i ty = true) (hlen : i < t.length) :
    tableGet (fold_ty t ty) i = .Used := by
  cases ty with
  | Param j =>
    have hij : i = j := by simpa [occursParam] using hocc
    subst hij
    rw [fold_ty]; split
    · rename_i hns; rw [needs_subst] at hns; simp at hns
    · exact tableGet_tableSet_self t i _ hlen
  | UnusedParam => simp [occursParam] at hocc
  | LayoutOnlyParam s a => simp [occursParam] at hocc
  | Prim n => simp [occursParam] at hocc
  | Ref p =>
    rw [fold_ty]; split
    · rename_i hns
      rw [occursParam_needs_subst i _ hocc] at hns
      simp at hns
    · rw [occursParam] at hocc
      exact fold_ty_marks t p i hocc hlen
  | FnTy a b =>
    rw [fold_ty]; split
    · rename_i hns
      rw [occursParam_needs_subst i _ hocc] at hns
      simp at hns
    · rw [occursParam] at hocc
      rcases Bool.or_eq_true_iff.mp hocc with h1 | h1
      · exact fold_ty_preserves_used _ b i
          (fold_ty_marks t a i h1 hlen)
      · exact fold_ty_marks (fold_ty t a) b i h1
          (by rw [fold_ty_length]; exact hlen)
  | Adt n args =>
    rw [fold_ty]; split
    · rename_i hns
      rw [occursParam_needs_subst i _ hocc] at hns
      simp at hns
    · rw [occursParam] at hocc
      exact fold_ty_list_marks t args i hocc hlen

theorem fold_ty_list_marks (t : Table) (l : List STy) (i : Nat)
    (hocc : occursParamList i l = true) (hlen : i < t.length) :
    tableGet (fold_ty_list t l) i = .Used := by
  cases l with
  | nil => simp [occursParamList] at hocc
  | cons ty tys =>
    rw [fold_ty_list]
    rw [occursParamList] at hocc
    rcases Bool.or_eq_true_iff.mp hocc with h1 | h1
    · exact fold_ty_list_preserves_used _ tys i (fold_ty_marks t ty i h1 hlen)
    · exact fold_ty_list_marks (fold_ty t ty) tys i h1
        (by rw [fold_ty_length]; exact hlen)

end

theorem fold_ty_list_marks_of_mem (t : Table) (l : List STy) (ty : STy)
    (i : Nat) (hmem : ty ∈ l) (hocc : occursParam i ty = true)
    (hlen : i < t.length) : tableGet (fold_ty_list t l) i = .Used := by
  induction l generalizing t with
  | nil => simp at hmem
  | cons hd tl ih =>
    rw [fold_ty_list]
    rcases List.mem_cons.mp hmem with h1 | h1
    · subst h1
      exact fold_ty_list_preserves_used _ tl i (fold_ty_marks t ty i hocc hlen)
    · exact ih (fold_ty t hd) h1 (by rw [fold_ty_length]; exact hlen)

mutual

theorem mem_fold_ty (t : Table) (ty : STy) (x : ParamUsage)
    (h : x ∈ fold_ty t ty) : x ∈ t ∨ x = .Used := by
  cases ty with
  | Param i =>
    rw [fold_ty] at h; split at h
    · left; exact h
    · exact mem_tableSet t i _ x h
  | UnusedParam => left; simpa [fold_ty, needs_subst] using h
  | LayoutOnlyParam s a => left; simpa [fold_ty, needs_subst] using h
  | Prim n => left; simpa [fold_ty, needs_subst] using h
  | Ref p =>
    rw [fold_ty] at h; split at h
    · left; exact h
    · exact mem_fold_ty t p x h
  | FnTy a b =>
    rw [fold_ty] at h; split at h
    · left; exact h
    · rcases mem_fold_ty (fold_ty t a) b x h with h1 | h1
      · exact mem_fold_ty t a x h1
      · right; exact h1
  | Adt n args =>
    rw [fold_ty] at h; split at h
    · left; exact h
    · exact mem_fold_ty_list t args x h

theorem mem_fold_ty_list (t : Table) (l : List STy) (x : ParamUsage)
    (h : x ∈ fold_ty_list t l) : x ∈ t ∨ x = .Used := by
  cases l with
  | nil => left; exact h
  | cons ty tys =>
    rw [fold_ty_list] at h
    rcases mem_fold_ty_list (fold_ty t ty) tys x h with h1 | h1
    · exact mem_fold_ty t ty x h1
    · right; exact h1

end

theorem mark_self_params_length (params : List GenericParamDef) (t : Table) :
    (mark_self_params params t).length = t.length := by
  induction params generalizing t with
  | nil => rfl
  | cons p rest ih =>
    rw [mark_self_params]
    rw [ih]
    by_cases h : p.is_self <;> simp [h, tableSet_length]

theorem mark_self_params_get_or (params : List GenericParamDef) (t : Table)
    (j : Nat) :
    tableGet (mark_self_params params t) j = tableGet t j ∨
      tableGet (mark_self_params params t) j = .Used := by
  induction params generalizing t with
  | nil => left; rfl
  | cons p rest ih =>
    rw [mark_self_params]
    by_cases h : p.is_self
    · simp only [h, if_true]
      rcases ih (tableSet t p.index .Used) with h1 | h1
      · rcases tableGet_tableSet_or t p.index j .Used with h2 | h2
        · left; rw [h1, h2]
        · right; rw [h1, h2]
      · right; exact h1
    · simp only [h, if_false]
      exact ih t

theorem mark_self_params_preserves_used (params : List GenericParamDef)
    (t : Table) (j : Nat) (h : tableGet t j = .Used) :
    tableGet (mark_self_params params t) j = .Used := by
  rcases mark_self_params_get_or params t j with h1 | h1
  · rw [h1, h]
  · exact h1

theorem mark_self_params_marks (params : List GenericParamDef) (t : Table)
    (p : GenericParamDef) (hmem : p ∈ params) (hself : p.is_self = true)
    (hlen : p.index < t.length) :
    tableGet (mark_self_params params t) p.index = .Used := by
  induction params generalizing t with
  | nil => simp at hmem
  | cons q rest ih =>
    rw [mark_self_params]
    rcases List.mem_cons.mp hmem with h1 | h1
    · subst h1
      simp only [hself, if_true]
      exact mark_self_params_preserves_used rest _ p.index
        (tableGet_tableSet_self t p.index _ hlen)
    · by_cases hq : q.is_self
      · simp only [hq, if_true]
        exact ih (tableSet t q.index .Used) h1 (by rw [tableSet_length]; exact hlen)
      · simp only [hq, if_false]
        exact ih t h1 hlen

theorem mem_mark_self_params (params : List GenericParamDef) (t : Table)
    (x : ParamUsage) (h : x ∈ mark_self_params params t) : x ∈ t ∨ x = .Used := by
  induction params generalizing t with
  | nil => left; exact h
  | cons p rest ih =>
    rw [mark_self_params] at h
    by_cases hp : p.is_self
    · simp only [hp, if_true] at h
      rcases ih (tableSet t p.index .Used) h with h1 | h1
      · exact mem_tableSet t p.index _ x h1
      · right; exact h1
    · simp only [hp, if_false] at h
      exact ih t h

theorem tableGet_mem_or_unused (t : Table) (i : Nat) :
    tableGet t i ∈ t ∨ tableGet t i = .Unused := by
  induction t generalizing i with
  | nil => right; rfl
  | cons x xs ih =>
    cases i with
    | zero => left; exact List.mem_cons_self _ _
    | succ j =>
      rcases ih j with h1 | h1
      · left; exact List.mem_cons_of_mem _ h1
      · right; exact h1

theorem used_substs_length (tcx : TyCtxt) (inst : Instance) :
    (used_substs_for_instance tcx inst).parameters.length = inst.substs.length := by
  unfold used_substs_for_instance
  simp only
  rw [fold_ty_length, mark_self_params_length, fold_ty_list_length,
    fold_ty_list_length, List.length_replicate]

theorem used_substs_mem (tcx : TyCtxt) (inst : Instance) (x : ParamUsage)
    (h : x ∈ (used_substs_for_instance tcx inst).parameters) :
    x = .Unused ∨ x = .Used := by
  unfold used_substs_for_instance at h
  simp only at h
  rcases mem_fold_ty _ _ _ h with h1 | h1
  · rcases mem_mark_self_params _ _ _ h1 with h2 | h2
    · rcases mem_fold_ty_list _ _ _ h2 with h3 | h3
      · rcases mem_fold_ty_list _ _ _ h3 with h4 | h4
        · left; exact List.eq_of_mem_replicate h4
        · right; exact h4
      · right; exact h3
    · right; exact h2
  · right; exact h1

theorem used_substs_no_layout (tcx : TyCtxt) (inst : Instance) (i : Nat) :
    tableGet (used_substs_for_instance tcx inst).parameters i ≠ .LayoutUsed := by
  rcases tableGet_mem_or_unused (used_substs_for_instance tcx inst).parameters i
    with h1 | h1
  · rcases used_substs_mem tcx inst _ h1 with h2 | h2 <;> simp [h2]
  · simp [h1]

theorem used_substs_congr (tcx : TyCtxt) (i1 i2 : Instance)
    (hdef : i1.def_id = i2.def_id) (hlen : i1.substs.length = i2.substs.length) :
    used_substs_for_instance tcx i1 = used_substs_for_instance tcx i2 := by
  unfold used_substs_for_instance
  rw [hdef, hlen]

/-- Read a substitution slot; out of range yields a dummy region argument. -/
def substGet (l : List SubstKind) (i : Nat) : SubstKind :=
  match l, i with
  | [], _ => .KLifetime 0
  | x :: _, 0 => x
  | _ :: xs, i + 1 => substGet xs i

theorem canonicalize_subst_isSome (tcx : TyCtxt) (fnid : Nat) (used : Table)
    (i : Nat) (s : SubstKind) (h : tableGet used i ≠ .LayoutUsed) :
    (canonicalize_subst tcx fnid used i s).isSome = true := by
  cases s with
  | KType ty =>
    rw [canonicalize_subst]
    rcases h2 : tableGet used i with _ | _ | _
    · rfl
    · exact absurd h2 h
    · rfl
  | KLifetime r => rfl

theorem canonicalize_substs_isSome (tcx : TyCtxt) (fnid : Nat) (used : Table)
    (h : ∀ i, tableGet used i ≠ .LayoutUsed) :
    ∀ (k : Nat) (l : List SubstKind),
      (canonicalize_substs tcx fnid used k l).isSome = true := by
  intro k l
  induction l generalizing k with
  | nil => rfl
  | cons s rest ih =>
    rw [canonicalize_substs]
    rcases h1 : canonicalize_subst tcx fnid used k s with _ | ⟨s1, d1⟩
    · have h3 := canonicalize_subst_isSome tcx fnid used k s (h k)
      rw [h1] at h3
      simp at h3
    · rcases h2 : canonicalize_substs tcx fnid used (k + 1) rest with _ | ⟨rest1, d2⟩
      · have h3 := ih (k + 1)
        rw [h2] at h3
        simp at h3
      · rfl

theorem canonicalize_substs_length (tcx : TyCtxt) (fnid : Nat) (used : Table) :
    ∀ (k : Nat) (l l1 : List SubstKind) (d : List Diagnostic),
      canonicalize_substs tcx fnid used k l = some (l1, d) →
      l1.length = l.length := by
  intro k l
  induction l generalizing k with
  | nil =>
    intro l1 d h
    rw [canonicalize_substs] at h
    obtain ⟨h1, _⟩ := Prod.mk.injEq .. ▸ Option.some.inj h
    rw [← h1]
  | cons s rest ih =>
    intro l1 d h
    rw [canonicalize_substs] at h
    rcases h1 : canonicalize_subst tcx fnid used k s with _ | ⟨s1, d1⟩ <;> rw [h1] at h
    · exact absurd h (by simp)
    · rcases h2 : canonicalize_substs tcx fnid used (k + 1) rest with _ | ⟨rest1, d2⟩ <;>
        rw [h2] at h
      · exact absurd h (by simp)
      · obtain ⟨hl, _⟩ := Prod.mk.injEq .. ▸ Option.some.inj h
        rw [← hl]
        simp [ih (k + 1) rest1 d2 h2]

theorem canonicalize_substs_spec (tcx : TyCtxt) (fnid : Nat) (used : Table) :
    ∀ (k : Nat) (l l1 : List SubstKind) (d : List Diagnostic),
      canonicalize_substs tcx fnid used k l = some (l1, d) →
      ∀ j, j < l.length →
        ∃ dj, canonicalize_subst tcx fnid used (k + j) (substGet l j) =
          some (substGet l1 j, dj) := by
  intro k l
  induction l generalizing k with
  | nil =>
    intro l1 d h j hj
    simp at hj
  | cons s rest ih =>
    intro l1 d h j hj
    rw [canonicalize_substs] at h
    rcases h1 : canonicalize_subst tcx fnid used k s with _ | ⟨s1, d1⟩ <;> rw [h1] at h
    · exact absurd h (by simp)
    · rcases h2 : canonicalize_substs tcx fnid used (k + 1) rest with _ | ⟨rest1, d2⟩ <;>
        rw [h2] at h
      · exact absurd h (by simp)
      · obtain ⟨hl, _⟩ := Prod.mk.injEq .. ▸ Option.some.inj h
        rw [← hl]
        cases j with
        | zero => exact ⟨d1, by simpa [substGet] using h1⟩
        | succ j2 =>
          have hj2 : j2 < rest.length := by simpa using hj
          obtain ⟨dj, hdj⟩ := ih (k + 1) rest1 d2 h2 j2 hj2
          refine ⟨dj, ?_⟩
          have harith : k + 1 + j2 = k + (j2 + 1) := by omega
          rw [← harith]
          simpa [substGet] using hdj

theorem canonicalize_subst_fix (tcx : TyCtxt) (fnid : Nat) (used : Table)
    (i : Nat) (s s1 : SubstKind) (d : List Diagnostic)
    (hnl : tableGet used i ≠ .LayoutUsed)
    (h : canonicalize_subst tcx fnid used i s = some (s1, d)) :
    canonicalize_subst tcx fnid used i s1 = some (s1, d) := by
  cases s with
  | KType ty =>
    rw [canonicalize_subst] at h
    rcases h2 : tableGet used i with _ | _ | _ <;> rw [h2] at h
    · obtain ⟨hs, hd⟩ := Prod.mk.injEq .. ▸ Option.some.inj h
      rw [← hs, ← hd, canonicalize_subst, h2]
    · exact absurd h2 hnl
    · obtain ⟨hs, hd⟩ := Prod.mk.injEq .. ▸ Option.some.inj h
      rw [← hs, ← hd, canonicalize_subst, h2]
  | KLifetime r =>
    obtain ⟨hs, hd⟩ := Prod.mk.injEq .. ▸ Option.some.inj h
    rw [← hs, ← hd, canonicalize_subst]

theorem canonicalize_substs_fix (tcx : TyCtxt) (fnid : Nat) (used : Table)
    (hnl : ∀ i, tableGet used i ≠ .LayoutUsed) :
    ∀ (k : Nat) (l l1 : List SubstKind) (d : List Diagnostic),
      canonicalize_substs tcx fnid used k l = some (l1, d) →
      canonicalize_substs tcx fnid used k l1 = some (l1, d) := by
  intro k l
  induction l generalizing k with
  | nil =>
    intro l1 d h
    obtain ⟨hl, hd⟩ := Prod.mk.injEq .. ▸ Option.some.inj h
    rw [← hl, ← hd]
    rfl
  | cons s rest ih =>
    intro l1 d h
    rw [canonicalize_substs] at h
    rcases h1 : canonicalize_subst tcx fnid used k s with _ | ⟨s1, d1⟩ <;> rw [h1] at h
    · exact absurd h (by simp)
    · rcases h2 : canonicalize_substs tcx fnid used (k + 1) rest with _ | ⟨rest1, d2⟩ <;>
        rw [h2] at h
      · exact absurd h (by simp)
      · obtain ⟨hl, hd⟩ := Prod.mk.injEq .. ▸ Option.some.inj h
        rw [← hl, ← hd]
        rw [canonicalize_substs,
          canonicalize_subst_fix tcx fnid used k s s1 d1 (hnl k) h1,
          ih (k + 1) rest1 d2 h2]

theorem canonicalize_substs_non_type (tcx : TyCtxt) (fnid : Nat) (used : Table) :
    ∀ (k : Nat) (l : List SubstKind),
      (∀ s ∈ l, ∀ ty, s ≠ SubstKind.KType ty) →
      canonicalize_substs tcx fnid used k l = some (l, []) := by
  intro k l
  induction l generalizing k with
  | nil => intro _; rfl
  | cons s rest ih =>
    intro h
    rw [canonicalize_substs]
    cases s with
    | KType ty => exact absurd rfl (h _ (List.mem_cons_self _ _) ty)
    | KLifetime r =>
      rw [canonicalize_subst]
      rw [ih (k + 1) (fun s hs => h s (List.mem_cons_of_mem _ hs))]
      rfl

theorem used_substs_marks_body (tcx : TyCtxt) (inst : Instance) (ty : STy)
    (i : Nat) (hmem : ty ∈ mirTypes (tcx.defs inst.def_id).mir)
    (hocc : occursParam i ty = true) (hlen : i < inst.substs.length) :
    tableGet (used_substs_for_instance tcx inst).parameters i = ParamUsage.Used := by
  unfold used_substs_for_instance
  simp only
  apply fold_ty_preserves_used
  apply mark_self_params_preserves_used
  apply fold_ty_list_preserves_used
  exact fold_ty_list_marks_of_mem _ _ ty i hmem hocc
    (by rw [List.length_replicate]; exact hlen)

theorem used_substs_marks_input (tcx : TyCtxt) (inst : Instance) (ty : STy)
    (i : Nat) (hmem : ty ∈ (tcx.defs inst.def_id).sig.inputs)
    (hocc : occursParam i ty = true) (hlen : i < inst.substs.length) :
    tableGet (used_substs_for_instance tcx inst).parameters i = ParamUsage.Used := by
  unfold used_substs_for_instance
  simp only
  apply fold_ty_preserves_used
  apply mark_self_params_preserves_used
  apply fold_ty_list_marks_of_mem _ _ ty i hmem hocc
  rw [fold_ty_list_length, List.length_replicate]
  exact hlen

theorem used_substs_marks_output (tcx : TyCtxt) (inst : Instance)
    (i : Nat) (hocc : occursParam i (tcx.defs inst.def_id).sig.output = true)
    (hlen : i < inst.substs.length) :
    tableGet (used_substs_for_instance tcx inst).parameters i = ParamUsage.Used := by
  unfold used_substs_for_instance
  simp only
  apply fold_ty_marks _ _ i hocc
  rw [mark_self_params_length, fold_ty_list_length, fold_ty_list_length,
    List.length_replicate]
  exact hlen

/-- Specification-side restatement of the Eligibility Guard: none of the four
skip conditions of `collapse_interchangable_instances` holds. -/
def passes_guard (tcx : TyCtxt) (inst : Instance) : Prop :=
  inst.substs.isEmpty = false ∧
  (tcx.defs inst.def_id).is_mir_available = true ∧
  (tcx.defs inst.def_id).is_fn_def = true ∧
  tcx.lang_items.contains (some inst.def_id) = false

theorem collapse_eligible (tcx : TyCtxt) (inst : Instance)
    (h : passes_guard tcx inst) :
    collapse_interchangable_instances tcx inst =
      match canonicalize_substs tcx inst.def_id
          (used_substs_for_instance tcx inst).parameters 0 inst.substs with
      | none => none
      | some (substs1, diags) => some ({ inst with substs := substs1 }, diags) := by
  obtain ⟨h1, h2, h3, h4⟩ := h
  rw [collapse_interchangable_instances]
  simp only [h1, h2, h3, h4]
  simp at h4
  simp [h4]

/-- Example MIR body: two locals (a concrete primitive and a reference to
generic parameter 0) and one cast statement from local 1 to a primitive. -/
def exMir : Mir :=
  { local_decls := [STy.Prim 0, STy.Ref (STy.Param 0)]
    rvalues := [Rvalue.Cast (Operand.Copy 1) (STy.Prim 1)] }

/-- Example function data: MIR available, an ordinary `FnDef`, one ordinary
generic parameter, signature taking parameter 0 and returning a primitive. -/
def exDefData : DefData :=
  { is_mir_available := true
    mir := exMir
    generics := { params := [{ index := 0, is_self := false }] }
    sig := { inputs := [STy.Param 0], output := STy.Prim 0 }
    is_fn_def := true }

/-- Example type context with no lang items and a constant layout answer. -/
def exTcx : TyCtxt :=
  { defs := fun _ => exDefData
    lang_items := []
    layout := fun _ _ => some (4, 4) }

/-- Example instance: the example function applied to a concrete primitive. -/
def exInst : Instance :=
  { def_id := 0, substs := [SubstKind.KType (STy.Prim 7)] }

/-- Second example instance of the same function identity with a different
concrete type argument. -/
def exInstB : Instance :=
  { def_id := 0, substs := [SubstKind.KType (STy.Prim 8)] }

/-- C1: for every function identity with available MIR, every
generic-parameter slot syntactically reachable as a bare parameter reference
anywhere in the body's types or in the normalized signature's input types or
output type (directly or nested) is marked `Used` in the table produced by
`used_substs_for_instance`. -/
theorem C1_used_marking_sound (tcx : TyCtxt) (inst : Instance) (i : Nat)
    (hlen : i < inst.substs.length)
    (hocc : (∃ ty ∈ mirTypes (tcx.defs inst.def_id).mir, occursParam i ty = true) ∨
            (∃ ty ∈ (tcx.defs inst.def_id).sig.inputs, occursParam i ty = true) ∨
            occursParam i (tcx.defs inst.def_id).sig.output = true) :
    tableGet (used_substs_for_instance tcx inst).parameters i = ParamUsage.Used := by
  rcases hocc with ⟨ty, hmem, hocc⟩ | ⟨ty, hmem, hocc⟩ | hocc
  · exact used_substs_marks_body tcx inst ty i hmem hocc hlen
  · exact used_substs_marks_input tcx inst ty i hmem hocc hlen
  · exact used_substs_marks_output tcx inst i hocc hlen

/-- Witness for C1 on the example: parameter 0 appears nested inside local 1's
reference type, and its slot is marked `Used`. -/
theorem C1_witness :
    0 < exInst.substs.length ∧
      tableGet (used_substs_for_instance exTcx exInst).parameters 0 = ParamUsage.Used :=
  ⟨by decide, C1_used_marking_sound exTcx exInst 0 (by decide)
    (Or.inl ⟨STy.Ref (STy.Param 0), by simp [mirTypes, exTcx, exDefData, exMir,
      rvalue_tys, operand_tys], rfl⟩)⟩

/-- C4: usage classification is deterministic, and instances sharing a
function identity (with argument lists of the same arity) yield identical
tables. -/
theorem C4_classifier_instance_independent (tcx : TyCtxt) (i1 i2 : Instance)
    (hdef : i1.def_id = i2.def_id)
    (hlen : i1.substs.length = i2.substs.length) :
    used_substs_for_instance tcx i1 = used_substs_for_instance tcx i1 ∧
      used_substs_for_instance tcx i1 = used_substs_for_instance tcx i2 :=
  ⟨rfl, used_substs_congr tcx i1 i2 hdef hlen⟩

/-- Witness for C4: the two example instances of function 0 with different
concrete arguments classify identically. -/
theorem C4_witness :
    exInst.def_id = exInstB.def_id ∧
      used_substs_for_instance exTcx exInst = used_substs_for_instance exTcx exInstB :=
  ⟨rfl, (C4_classifier_instance_independent exTcx exInst exInstB rfl rfl).2⟩

/-- C7: every parameter definition flagged as the receiver/self slot is marked
`Used` by the classifier, whatever the body and signature contain. -/
theorem C7_receiver_used (tcx : TyCtxt) (inst : Instance) (p : GenericParamDef)
    (hmem : p ∈ (tcx.defs inst.def_id).generics.params)
    (hself : p.is_self = true)
    (hlen : p.index < inst.substs.length) :
    tableGet (used_substs_for_instance tcx inst).parameters p.index =
      ParamUsage.Used := by
  unfold used_substs_for_instance
  simp only
  apply fold_ty_preserves_used
  apply mark_self_params_marks _ _ p hmem hself
  rw [fold_ty_list_length, fold_ty_list_length, List.length_replicate]
  exact hlen

/-- Function data whose single generic parameter is the receiver/self slot and
whose body and signature never mention it. -/
def selfDefData : DefData :=
  { is_mir_available := true
    mir := { local_decls := [STy.Prim 0], rvalues := [] }
    generics := { params := [{ index := 0, is_self := true }] }
    sig := { inputs := [], output := STy.Prim 0 }
    is_fn_def := true }

/-- Type context for the receiver example. -/
def selfTcx : TyCtxt :=
  { defs := fun _ => selfDefData
    lang_items := []
    layout := fun _ _ => some (4, 4) }

/-- Instance of the receiver example. -/
def selfInst : Instance :=
  { def_id := 0, substs := [SubstKind.KType (STy.Prim 7)] }

/-- Witness for C7: the receiver slot of the example is `Used` although the
body never references it. -/
theorem C7_witness :
    ({ index := 0, is_self := true } : GenericParamDef) ∈
        (selfTcx.defs selfInst.def_id).generics.params ∧
      tableGet (used_substs_for_instance selfTcx selfInst).parameters 0 =
        ParamUsage.Used :=
  ⟨by simp [selfTcx, selfDefData], C7_receiver_used selfTcx selfInst
    { index := 0, is_self := true } (by simp [selfTcx, selfDefData]) rfl (by decide)⟩

/-- C9: every table entry produced by the classifier is `Unused` or `Used`;
the `LayoutUsed` level is never assigned, so no slot can satisfy the
canonicalizer's layout-only branch guard. -/
theorem C9_layout_level_never_assigned (tcx : TyCtxt) (inst : Instance) (i : Nat) :
    (tableGet (used_substs_for_instance tcx inst).parameters i = ParamUsage.Unused ∨
      tableGet (used_substs_for_instance tcx inst).parameters i = ParamUsage.Used) ∧
      tableGet (used_substs_for_instance tcx inst).parameters i ≠
        ParamUsage.LayoutUsed := by
  refine ⟨?_, used_substs_no_layout tcx inst i⟩
  rcases tableGet_mem_or_unused (used_substs_for_instance tcx inst).parameters i
    with h1 | h1
  · exact used_substs_mem tcx inst _ h1
  · left; exact h1

/-- C2: an instance failing any Eligibility Guard condition (empty
substitution list, no MIR available, a non-`FnDef` value such as a closure,
or a lang-item function identity) is returned unchanged with no diagnostic
emitted. -/
theorem C2_guard_skip_unchanged (tcx : TyCtxt) (inst : Instance)
    (h : inst.substs.isEmpty = true ∨
         (tcx.defs inst.def_id).is_mir_available = false ∨
         (tcx.defs inst.def_id).is_fn_def = false ∨
         tcx.lang_items.contains (some inst.def_id) = true) :
    collapse_interchangable_instances tcx inst = some (inst, []) := by
  rw [collapse_interchangable_instances]
  rcases h with h | h | h | h <;> simp [h]
  intro _ _ _ hnot
  exact absurd (by simpa using h) hnot

/-- Witness for C2: the empty-substitution instance passes through unchanged
with no diagnostics. -/
theorem C2_witness :
    collapse_interchangable_instances exTcx { def_id := 0, substs := [] } =
      some ({ def_id := 0, substs := [] }, []) :=
  C2_guard_skip_unchanged exTcx { def_id := 0, substs := [] } (Or.inl rfl)

/-- C5: canonicalization is total; no input instance makes
`collapse_interchangable_instances` fail (the layout `unwrap`, the only
modelled panic, is unreachable because the classifier never assigns
`LayoutUsed`). -/
theorem C5_canonicalize_total (tcx : TyCtxt) (inst : Instance) :
    (collapse_interchangable_instances tcx inst).isSome = true := by
  rw [collapse_interchangable_instances]
  split
  · rfl
  · split
    · rfl
    · split
      · rfl
      · have h := canonicalize_substs_isSome tcx inst.def_id
          (used_substs_for_instance tcx inst).parameters
          (fun i => used_substs_no_layout tcx inst i) 0 inst.substs
        rcases h1 : canonicalize_substs tcx inst.def_id
            (used_substs_for_instance tcx inst).parameters 0 inst.substs
          with _ | ⟨s1, d⟩
        · rw [h1] at h
          simp at h
        · simp only [h1]
          rfl

/-- C6: a generic parameter occurring in a cast operation's source-operand
type (the operand's declared local type or constant literal type) or in its
target type is marked `Used` by the classifier: both types are reached by the
structural fold of the body (a place operand's type through the folded local
declarations, a constant operand's type and the target type through the
folded rvalue). -/
theorem C6_cast_types_marked (tcx : TyCtxt) (inst : Instance) (i : Nat)
    (op : Operand) (castTy : STy)
    (hmem : Rvalue.Cast op castTy ∈ (tcx.defs inst.def_id).mir.rvalues)
    (hocc : occursParam i (operand_ty (tcx.defs inst.def_id).mir op) = true ∨
            occursParam i castTy = true)
    (hlen : i < inst.substs.length) :
    tableGet (used_substs_for_instance tcx inst).parameters i = ParamUsage.Used := by
  rcases hocc with hocc | hocc
  · cases op with
    | Copy l =>
      rw [operand_ty] at hocc
      by_cases hl : l < (tcx.defs inst.def_id).mir.local_decls.length
      · have hmem2 : (tcx.defs inst.def_id).mir.local_decls.getD l (.Prim 0) ∈
            mirTypes (tcx.defs inst.def_id).mir := by
          apply List.mem_append_left
          rw [List.getD_eq_getElem _ _ hl]
          exact List.getElem_mem hl
        exact used_substs_marks_body tcx inst _ i hmem2 hocc hlen
      · rw [List.getD_eq_default _ _ (by omega)] at hocc
        simp [occursParam] at hocc
    | Constant cty =>
      rw [operand_ty] at hocc
      have hmem2 : cty ∈ mirTypes (tcx.defs inst.def_id).mir := by
        apply List.mem_append_right
        apply List.mem_flatMap.mpr
        exact ⟨Rvalue.Cast (Operand.Constant cty) castTy, hmem,
          by simp [rvalue_tys, operand_tys]⟩
      exact used_substs_marks_body tcx inst cty i hmem2 hocc hlen
  · have hmem2 : castTy ∈ mirTypes (tcx.defs inst.def_id).mir := by
      apply List.mem_append_right
      apply List.mem_flatMap.mpr
      exact ⟨Rvalue.Cast op castTy, hmem,
        by cases op <;> simp [rvalue_tys, operand_tys]⟩
    exact used_substs_marks_body tcx inst castTy i hmem2 hocc hlen

/-- Function data where parameter 0 appears only as a cast's target type. -/
def castDefData : DefData :=
  { is_mir_available := true
    mir := { local_decls := [STy.Prim 0]
             rvalues := [Rvalue.Cast (Operand.Copy 0) (STy.Param 0)] }
    generics := { params := [{ index := 0, is_self := false }] }
    sig := { inputs := [], output := STy.Prim 0 }
    is_fn_def := true }

/-- Type context for the cast example. -/
def castTcx : TyCtxt :=
  { defs := fun _ => castDefData
    lang_items := []
    layout := fun _ _ => some (4, 4) }

/-- Instance of the cast example. -/
def castInst : Instance :=
  { def_id := 0, substs := [SubstKind.KType (STy.Prim 9)] }

/-- Witness for C6: a parameter occurring only as the cast's target type is
marked `Used`. -/
theorem C6_witness :
    Rvalue.Cast (Operand.Copy 0) (STy.Param 0) ∈
        (castTcx.defs castInst.def_id).mir.rvalues ∧
      tableGet (used_substs_for_instance castTcx castInst).parameters 0 =
        ParamUsage.Used :=
  ⟨by simp [castTcx, castDefData], C6_cast_types_marked castTcx castInst 0
    (Operand.Copy 0) (STy.Param 0) (by simp [castTcx, castDefData])
    (Or.inr rfl) (by decide)⟩

/-- C10: an instance passing the Eligibility Guard whose (non-empty)
substitution list holds no type-valued argument is rewritten to an
element-for-element identical list: every non-type argument is cloned
through unchanged, so the instance comes back equal (and diagnostic-free). -/
theorem C10_non_type_passthrough (tcx : TyCtxt) (inst : Instance)
    (helig : passes_guard tcx inst)
    (hnt : ∀ s ∈ inst.substs, ∀ ty, s ≠ SubstKind.KType ty) :
    collapse_interchangable_instances tcx inst = some (inst, []) := by
  rw [collapse_eligible tcx inst helig]
  rw [canonicalize_substs_non_type tcx inst.def_id
    (used_substs_for_instance tcx inst).parameters 0 inst.substs hnt]

/-- Instance with a single region/lifetime argument. -/
def ltInst : Instance :=
  { def_id := 0, substs := [SubstKind.KLifetime 3] }

/-- Witness for C10: a region-only instance of the example function passes
through element-for-element unchanged. -/
theorem C10_witness :
    collapse_interchangable_instances exTcx ltInst = some (ltInst, []) :=
  C10_non_type_passthrough exTcx ltInst
    ⟨rfl, rfl, rfl, rfl⟩ (by intro s hs ty; simp [ltInst] at hs; simp [hs])

/-- C3: for an eligible instance the canonicalizer keeps the function
identity and the argument count, keeps `Used` type slots, replaces
`LayoutUsed` slots by the layout-only marker carrying the queried size and
alignment, replaces `Unused` slots by the unused marker, and clones every
non-type argument unchanged. -/
theorem C3_canonicalizer_rewrites (tcx : TyCtxt) (inst inst1 : Instance)
    (diags : List Diagnostic) (helig : passes_guard tcx inst)
    (hres : collapse_interchangable_instances tcx inst = some (inst1, diags)) :
    inst1.def_id = inst.def_id ∧ inst1.substs.length = inst.substs.length ∧
    (∀ j, j < inst.substs.length →
      (∀ ty, substGet inst.substs j = SubstKind.KType ty →
        (tableGet (used_substs_for_instance tcx inst).parameters j =
            ParamUsage.Used →
          substGet inst1.substs j = SubstKind.KType ty) ∧
        (tableGet (used_substs_for_instance tcx inst).parameters j =
            ParamUsage.LayoutUsed →
          ∃ size align, tcx.layout inst.def_id ty = some (size, align) ∧
            substGet inst1.substs j =
              SubstKind.KType (STy.LayoutOnlyParam size align)) ∧
        (tableGet (used_substs_for_instance tcx inst).parameters j =
            ParamUsage.Unused →
          substGet inst1.substs j = SubstKind.KType STy.UnusedParam)) ∧
      ((∀ ty, substGet inst.substs j ≠ SubstKind.KType ty) →
        substGet inst1.substs j = substGet inst.substs j)) := by
  rw [collapse_eligible tcx inst helig] at hres
  rcases h1 : canonicalize_substs tcx inst.def_id
      (used_substs_for_instance tcx inst).parameters 0 inst.substs
    with _ | ⟨s1, d⟩ <;> rw [h1] at hres
  · exact absurd hres (by simp)
  · obtain ⟨hi, hd⟩ := Prod.mk.injEq .. ▸ Option.some.inj hres
    subst hi
    refine ⟨rfl, canonicalize_substs_length tcx inst.def_id _ 0 inst.substs s1 d h1,
      ?_⟩
    intro j hj
    obtain ⟨dj, hdj⟩ :=
      canonicalize_substs_spec tcx inst.def_id _ 0 inst.substs s1 d h1 j hj
    rw [Nat.zero_add] at hdj
    constructor
    · intro ty hty
      rw [hty, canonicalize_subst] at hdj
      refine ⟨?_, ?_, ?_⟩
      · intro htab
        rw [htab] at hdj
        simp only at hdj
        obtain ⟨hs, _⟩ := Prod.mk.injEq .. ▸ Option.some.inj hdj
        exact hs.symm
      · intro htab
        rw [htab] at hdj
        simp only at hdj
        rcases h2 : tcx.layout inst.def_id ty with _ | ⟨size, align⟩ <;>
          rw [h2] at hdj
        · exact absurd hdj (by simp)
        · obtain ⟨hs, _⟩ := Prod.mk.injEq .. ▸ Option.some.inj hdj
          exact ⟨size, align, rfl, hs.symm⟩
      · intro htab
        rw [htab] at hdj
        simp only at hdj
        obtain ⟨hs, _⟩ := Prod.mk.injEq .. ▸ Option.some.inj hdj
        exact hs.symm
    · intro hnt
      rcases hsk : substGet inst.substs j with ty | r
      · exact absurd hsk (hnt ty)
      · rw [hsk, canonicalize_subst] at hdj
        obtain ⟨hs, _⟩ := Prod.mk.injEq .. ▸ Option.some.inj hdj
        exact hs.symm

/-- Witness for C3 on the example instance: the single slot is `Used`, so the
argument survives unchanged. -/
theorem C3_witness :
    exInst.def_id = exInst.def_id ∧ exInst.substs.length = exInst.substs.length ∧
    (∀ j, j < exInst.substs.length →
      (∀ ty, substGet exInst.substs j = SubstKind.KType ty →
        (tableGet (used_substs_for_instance exTcx exInst).parameters j =
            ParamUsage.Used →
          substGet exInst.substs j = SubstKind.KType ty) ∧
        (tableGet (used_substs_for_instance exTcx exInst).parameters j =
            ParamUsage.LayoutUsed →
          ∃ size align, exTcx.layout exInst.def_id ty = some (size, align) ∧
            substGet exInst.substs j =
              SubstKind.KType (STy.LayoutOnlyParam size align)) ∧
        (tableGet (used_substs_for_instance exTcx exInst).parameters j =
            ParamUsage.Unused →
          substGet exInst.substs j = SubstKind.KType STy.UnusedParam)) ∧
      ((∀ ty, substGet exInst.substs j ≠ SubstKind.KType ty) →
        substGet exInst.substs j = substGet exInst.substs j)) :=
  C3_canonicalizer_rewrites exTcx exInst exInst [] ⟨rfl, rfl, rfl, rfl⟩ rfl

theorem length_pos_of_isEmpty_eq_false (l : List SubstKind)
    (h : l.isEmpty = false) : 0 < l.length := by
  cases l with
  | nil => simp at h
  | cons a b => simp

theorem isEmpty_eq_false_of_length_pos (l : List SubstKind)
    (h : 0 < l.length) : l.isEmpty = false := by
  cases l with
  | nil => simp at h
  | cons a b => rfl

theorem collapse_of_guard_fail (tcx : TyCtxt) (inst : Instance)
    (h : ¬ passes_guard tcx inst) :
    collapse_interchangable_instances tcx inst = some (inst, []) := by
  rw [collapse_interchangable_instances]
  by_cases h1 : inst.substs.isEmpty = true
  · simp [h1]
  · by_cases h2 : (tcx.defs inst.def_id).is_mir_available = false
    · simp [h2]
    · by_cases h3 : (tcx.defs inst.def_id).is_fn_def = false
      · simp [h3]
      · by_cases h4 : tcx.lang_items.contains (some inst.def_id) = true
        · simp [h4]
          intro _ _ _ hnot
          exact absurd (by simpa using h4) hnot
        · exact absurd ⟨Bool.not_eq_true _ ▸ h1, Bool.not_eq_false _ ▸ h2,
            Bool.not_eq_false _ ▸ h3, Bool.not_eq_true _ ▸ h4⟩ h

/-- C8: canonicalization is idempotent: whatever
`collapse_interchangable_instances` returns, feeding the result back in
returns it again (with the same diagnostics). -/
theorem C8_idempotent (tcx : TyCtxt) (x y : Instance) (d : List Diagnostic)
    (h : collapse_interchangable_instances tcx x = some (y, d)) :
    collapse_interchangable_instances tcx y = some (y, d) := by
  by_cases hg : passes_guard tcx x
  · rw [collapse_eligible tcx x hg] at h
    rcases h1 : canonicalize_substs tcx x.def_id
        (used_substs_for_instance tcx x).parameters 0 x.substs
      with _ | ⟨s1, d1⟩ <;> rw [h1] at h
    · exact absurd h (by simp)
    · obtain ⟨hi, hd⟩ := Prod.mk.injEq .. ▸ Option.some.inj h
      subst hd
      have hyd : y.def_id = x.def_id := by rw [← hi]
      have hys : y.substs = s1 := by rw [← hi]
      have hlen : s1.length = x.substs.length :=
        canonicalize_substs_length tcx x.def_id _ 0 x.substs s1 d1 h1
      have hg2 : passes_guard tcx y := by
        obtain ⟨g1, g2, g3, g4⟩ := hg
        refine ⟨?_, by rw [hyd]; exact g2, by rw [hyd]; exact g3,
          by rw [hyd]; exact g4⟩
        apply isEmpty_eq_false_of_length_pos
        rw [hys, hlen]
        exact length_pos_of_isEmpty_eq_false _ g1
      rw [collapse_eligible tcx y hg2]
      have htab : used_substs_for_instance tcx y = used_substs_for_instance tcx x :=
        used_substs_congr tcx y x hyd (by rw [hys, hlen])
      rw [hyd, hys, htab]
      rw [canonicalize_substs_fix tcx x.def_id _
        (fun i => used_substs_no_layout tcx x i) 0 x.substs s1 d1 h1]
      rw [← hys, ← hyd]
  · have hx := collapse_of_guard_fail tcx x hg
    rw [hx] at h
    obtain ⟨hy, hd⟩ := Prod.mk.injEq .. ▸ Option.some.inj h
    subst hy
    subst hd
    exact hx

/-- Function data whose single generic parameter is referenced nowhere:
canonicalization erases it. -/
def unusedDefData : DefData :=
  { is_mir_available := true
    mir := { local_decls := [STy.Prim 0], rvalues := [] }
    generics := { params := [{ index := 0, is_self := false }] }
    sig := { inputs := [], output := STy.Prim 0 }
    is_fn_def := true }

/-- Type context for the unused-parameter example. -/
def unusedTcx : TyCtxt :=
  { defs := fun _ => unusedDefData
    lang_items := []
    layout := fun _ _ => some (4, 4) }

/-- Instance of the unused-parameter example. -/
def unusedInst : Instance :=
  { def_id := 0, substs := [SubstKind.KType (STy.Prim 7)] }

/-- Witness for C8: canonicalizing the unused-parameter example erases slot 0;
canonicalizing the already-erased result returns it unchanged. -/
theorem C8_witness :
    collapse_interchangable_instances unusedTcx
        { def_id := 0, substs := [SubstKind.KType STy.UnusedParam] } =
      some ({ def_id := 0, substs := [SubstKind.KType STy.UnusedParam] },
        [{ slot := 0, fn := 0 }]) :=
  C8_idempotent unusedTcx unusedInst
    { def_id := 0, substs := [SubstKind.KType STy.UnusedParam] }
    [{ slot := 0, fn := 0 }] rfl
